import Mathlib

/-!
Verification of the `Path` engine of `ezdxf/path/path.py` (vector-path
abstraction: command-sequence representation of lines and Bézier segments,
its mutation API, reversal, curve-chain ingestion and sampling).

Coordinates are embedded as exact rationals; the floating-point `Vec3` of
`ezdxf.math` is not part of the given sources, so its approximate-equality
test is modelled from the spec as a per-component absolute-tolerance
comparison with default tolerance 1e-9.
-/

namespace Ezdxf

-- Batteries marks the rational operations irreducible, which blocks
-- evaluation of concrete instances by `decide`; restore the default.
attribute [local semireducible] Rat.add Rat.sub Rat.mul Rat.inv

/-- Modelled from the spec: the 3D point type of `ezdxf.math.Vec3`
(not part of the given sources), with exact rational coordinates. -/
structure Vec3 where
  x : ℚ
  y : ℚ
  z : ℚ
deriving DecidableEq

/-- Embeds `ezdxf.math.NULLVEC`, the origin. -/
def NULLVEC : Vec3 := ⟨0, 0, 0⟩

/-- Modelled from the spec: default point-equality tolerance (≈ 1e-9). -/
def defaultAbsTol : ℚ := 1 / 1000000000

/-- Modelled from the spec: `Vec3.isclose`, the approximate-equality test
with a tolerance parameter, as per-component absolute comparison. -/
def Vec3.isclose (a b : Vec3) (tol : ℚ) : Bool :=
  decide (|a.x - b.x| ≤ tol) && decide (|a.y - b.y| ≤ tol)
    && decide (|a.z - b.z| ≤ tol)

/-- Embeds `Vec3.replace` with an explicit z override. -/
def Vec3.replaceZ (a : Vec3) (z : ℚ) : Vec3 :=
  ⟨a.x, a.y, z⟩

/-- A path command (`LineTo`, `Curve3To`, `Curve4To` of the source). -/
inductive PathElement where
  | lineTo (e : Vec3)
  | curve3To (e ctrl : Vec3)
  | curve4To (e ctrl1 ctrl2 : Vec3)
deriving DecidableEq

/-- The `end` attribute shared by all three command records. -/
def PathElement.endPoint : PathElement → Vec3
  | .lineTo e => e
  | .curve3To e _ => e
  | .curve4To e _ _ => e

/-- Embeds `Path`: a start point plus an ordered command sequence
(`Path._start`, `Path._commands`). -/
structure Path where
  start : Vec3
  commands : List PathElement
deriving DecidableEq

/-- Embeds the `Path.end` property: the last command's end point, else the start point. -/
def Path.endPoint (p : Path) : Vec3 :=
  match p.commands.getLast? with
  | some cmd => cmd.endPoint
  | none => p.start

/-- Embeds `Path.is_closed`: start is close to end. -/
def Path.is_closed (p : Path) : Bool :=
  p.start.isclose p.endPoint defaultAbsTol

/-- Embeds the `Path.start` setter: fails unless the command list is empty. -/
def Path.setStart (p : Path) (location : Vec3) : Except String Path :=
  if p.commands.length ≠ 0 then
    .error "Requires an empty path."
  else
    .ok { p with start := location }

/-- Embeds `Path.line_to`. -/
def Path.line_to (p : Path) (location : Vec3) : Path :=
  { p with commands := p.commands ++ [.lineTo location] }

/-- Embeds `Path.curve3_to`. -/
def Path.curve3_to (p : Path) (location ctrl : Vec3) : Path :=
  { p with commands := p.commands ++ [.curve3To location ctrl] }

/-- Embeds `Path.curve4_to`. -/
def Path.curve4_to (p : Path) (location ctrl1 ctrl2 : Vec3) : Path :=
  { p with commands := p.commands ++ [.curve4To location ctrl1 ctrl2] }

/-- Embeds `Path.close`: add a line back to the start unless already closed. -/
def Path.close (p : Path) : Path :=
  if p.is_closed then p else p.line_to p.start

/-- The running end of a command list started at `s`; agrees with
`Path.endPoint` (proved below) and is convenient for induction. -/
def pathEnd (s : Vec3) : List PathElement → Vec3
  | [] => s
  | cmd :: rest => pathEnd cmd.endPoint rest

/-- A single reversed command: the new end point is the previous command's
end point; a cubic curve swaps its control points, a quadratic keeps its
control point. -/
def reversedCmd : PathElement → Vec3 → PathElement
  | .lineTo _, prevEnd => .lineTo prevEnd
  | .curve3To _ ctrl, prevEnd => .curve3To prevEnd ctrl
  | .curve4To _ ctrl1 ctrl2, prevEnd => .curve4To prevEnd ctrl2 ctrl1

/-- The loop of `Path.reversed`: `index` runs from `i - 1` down to `0`,
appending one reversed command per step (`self[index]` is embedded as
`getD`; the indices stay in range). -/
def Path.reversedAux (p : Path) : Nat → Path → Path
  | 0, path => path
  | i + 1, path =>
      let cmd := p.commands.getD i (.lineTo NULLVEC)
      let prevEnd :=
        if i > 0 then (p.commands.getD (i - 1) (.lineTo NULLVEC)).endPoint
        else p.start
      p.reversedAux i
        (match cmd with
         | .lineTo _ => path.line_to prevEnd
         | .curve3To _ ctrl => path.curve3_to prevEnd ctrl
         | .curve4To _ ctrl1 ctrl2 => path.curve4_to prevEnd ctrl2 ctrl1)

/-- Embeds `Path.reversed`: a fresh `Path()` for an empty path, else the loop
starting from a new path at the old end point. -/
def Path.reversed (p : Path) : Path :=
  if p.commands.length = 0 then ⟨NULLVEC, []⟩
  else p.reversedAux p.commands.length ⟨p.endPoint, []⟩

/-- Reversal of a command list as one recursive pass: the reversal of the
head command (paired with the running start `s`) comes last. -/
def revCmds (s : Vec3) : List PathElement → List PathElement
  | [] => []
  | cmd :: rest => revCmds cmd.endPoint rest ++ [reversedCmd cmd s]

/-- Modelled from the spec: a cubic Bézier curve of `ezdxf.math.Bezier4P`
(not part of the given sources), reduced to its four control points; it
exposes its control-point list and its own reversed form. -/
structure Bezier4P where
  p0 : Vec3
  p1 : Vec3
  p2 : Vec3
  p3 : Vec3
deriving DecidableEq

/-- Embeds `Bezier4P.reverse`: the same curve with reversed point order. -/
def Bezier4P.reverse (c : Bezier4P) : Bezier4P :=
  ⟨c.p3, c.p2, c.p1, c.p0⟩

/-- Modelled from the spec: a quadratic Bézier curve of
`ezdxf.math.Bezier3P`, reduced to its three control points. -/
structure Bezier3P where
  p0 : Vec3
  p1 : Vec3
  p2 : Vec3
deriving DecidableEq

/-- Embeds `Bezier3P.reverse`: the same curve with reversed point order. -/
def Bezier3P.reverse (c : Bezier3P) : Bezier3P :=
  ⟨c.p2, c.p1, c.p0⟩

/-- Embeds `_reverse_bezier_curves`: reverse each curve's own point order, then
the list order. -/
def _reverse_bezier_curves {α : Type} (rev : α → α) (curves : List α) :
    List α :=
  (curves.map rev).reverse

/-- The explicit `abs_tol=1e-9` used by the connection test of
`add_curves4` / `add_curves3`. -/
def lineConnectionTol : ℚ := 1 / 1000000000

/-- The loop body of `Path.add_curves4`: connect with a line when the
curve start is away from the running path end, then append the curve. -/
def addCurve4Step (path : Path) (curve : Bezier4P) : Path :=
  let path :=
    if !(curve.p0.isclose path.endPoint lineConnectionTol) then
      path.line_to curve.p0
    else path
  path.curve4_to curve.p3 curve.p1 curve.p2

/-- Embeds `Path.add_curves4`. -/
def Path.add_curves4 (p : Path) (curves : List Bezier4P) : Path :=
  match curves.getLast? with
  | none => p
  | some lastCurve =>
      let curves :=
        if p.endPoint.isclose lastCurve.p3 defaultAbsTol then
          _reverse_bezier_curves Bezier4P.reverse curves
        else curves
      curves.foldl addCurve4Step p

/-- The loop body of `Path.add_curves3`. -/
def addCurve3Step (path : Path) (curve : Bezier3P) : Path :=
  let path :=
    if !(curve.p0.isclose path.endPoint lineConnectionTol) then
      path.line_to curve.p0
    else path
  path.curve3_to curve.p2 curve.p1

/-- Embeds `Path.add_curves3`. -/
def Path.add_curves3 (p : Path) (curves : List Bezier3P) : Path :=
  match curves.getLast? with
  | none => p
  | some lastCurve =>
      let curves :=
        if p.endPoint.isclose lastCurve.p2 defaultAbsTol then
          _reverse_bezier_curves Bezier3P.reverse curves
        else curves
      curves.foldl addCurve3Step p

/-- The commands contributed by a cubic curve chain traversed from a given
running end point: an optional connecting line, then the curve command,
the running end advancing to each curve's end. -/
def chain4 : Vec3 → List Bezier4P → List PathElement
  | _, [] => []
  | runningEnd, c :: rest =>
      (if !(c.p0.isclose runningEnd lineConnectionTol) then
        [.lineTo c.p0] else []) ++
      (.curve4To c.p3 c.p1 c.p2) :: chain4 c.p3 rest

/-- The commands contributed by a quadratic curve chain. -/
def chain3 : Vec3 → List Bezier3P → List PathElement
  | _, [] => []
  | runningEnd, c :: rest =>
      (if !(c.p0.isclose runningEnd lineConnectionTol) then
        [.lineTo c.p0] else []) ++
      (.curve3To c.p2 c.p1) :: chain3 c.p2 rest

/-- Vector addition, modelled from the spec for Bézier evaluation. -/
def Vec3.add (a b : Vec3) : Vec3 :=
  ⟨a.x + b.x, a.y + b.y, a.z + b.z⟩

/-- Scalar multiple, modelled from the spec for Bézier evaluation. -/
def Vec3.smul (q : ℚ) (a : Vec3) : Vec3 :=
  ⟨q * a.x, q * a.y, q * a.z⟩

/-- Midpoint of two points (`lerp` with factor 1/2). -/
def Vec3.midpt (a b : Vec3) : Vec3 :=
  ⟨(a.x + b.x) / 2, (a.y + b.y) / 2, (a.z + b.z) / 2⟩

/-- Squared Euclidean distance (exact divergence test avoiding the square
root). -/
def Vec3.distSq (a b : Vec3) : ℚ :=
  (a.x - b.x) * (a.x - b.x) + (a.y - b.y) * (a.y - b.y)
    + (a.z - b.z) * (a.z - b.z)

/-- Modelled from the spec: the point of a quadratic Bézier curve at
parameter `t` (the evaluator of `ezdxf.math.Bezier3P`, not under src/). -/
def bezier3Point (c : Bezier3P) (t : ℚ) : Vec3 :=
  (Vec3.smul ((1 - t) * (1 - t)) c.p0).add
    ((Vec3.smul (2 * (1 - t) * t) c.p1).add
      (Vec3.smul (t * t) c.p2))

/-- Modelled from the spec: the point of a cubic Bézier curve at
parameter `t` (the evaluator of `ezdxf.math.Bezier4P`, not under src/). -/
def bezier4Point (c : Bezier4P) (t : ℚ) : Vec3 :=
  (Vec3.smul ((1 - t) * (1 - t) * (1 - t)) c.p0).add
    ((Vec3.smul (3 * (1 - t) * (1 - t) * t) c.p1).add
      ((Vec3.smul (3 * (1 - t) * t * t) c.p2).add
        (Vec3.smul (t * t * t) c.p3)))

/-- Modelled from the spec: the fixed-count uniform sampler of a curve
(`segments` steps give `segments + 1` points at parameters `i / n`). -/
def approximateP (f : ℚ → Vec3) (n : Nat) : List Vec3 :=
  (List.range (n + 1)).map (fun i : Nat => f ((i : ℚ) / (n : ℚ)))

/-- Depth cap for the adaptive subdivision; the spec (design note on
recursive adaptive subdivision) sanctions a maximum-depth guard that
accepts the current subdivision once the cap is hit. -/
def flatteningMaxDepth : Nat := 16

/-- Modelled from the spec: adaptive recursive bisection of one parameter
interval; the chord `[sp, ep]` is accepted (yielding `ep`) when the
distance from its midpoint to the curve midpoint is below `d`, else both
halves are flattened recursively. -/
def flattenSub (f : ℚ → Vec3) (d : ℚ) :
    Nat → Vec3 → Vec3 → ℚ → ℚ → List Vec3
  | 0, _, ep, _, _ => [ep]
  | depth + 1, sp, ep, t0, t1 =>
      let tm := (t0 + t1) / 2
      let mp := f tm
      let cp := Vec3.midpt sp ep
      if Vec3.distSq cp mp < d * d then [ep]
      else
        flattenSub f d depth sp mp t0 tm ++ flattenSub f d depth mp ep tm t1

/-- Samples of the first `i` of the `n` base segments of the adaptive
flattening, concatenated in order. -/
def flattenChunks (f : ℚ → Vec3) (d : ℚ) (n : Nat) : Nat → List Vec3
  | 0 => []
  | i + 1 =>
      flattenChunks f d n i ++
        flattenSub f d flatteningMaxDepth (f ((i : ℚ) / (n : ℚ)))
          (f (((i : ℚ) + 1) / (n : ℚ))) ((i : ℚ) / (n : ℚ))
          (((i : ℚ) + 1) / (n : ℚ))

/-- Modelled from the spec: the adaptive distance-bounded sampler of a
curve: the curve's start point followed by the adaptive samples of the
`n` base segments (`n` is the minimum segment count). -/
def flatteningP (f : ℚ → Vec3) (d : ℚ) (n : Nat) : List Vec3 :=
  f 0 :: flattenChunks f d n n

/-- The samples contributed by one command in `Path._approximate`: a line
yields exactly its end point; a curve is sampled and its own start point
is skipped (`next(pts)`). -/
def segBlock (a3 : Vec3 → Vec3 → Vec3 → List Vec3)
    (a4 : Vec3 → Vec3 → Vec3 → Vec3 → List Vec3) (start : Vec3) :
    PathElement → List Vec3
  | .lineTo e => [e]
  | .curve3To e ctrl => (a3 start ctrl e).tail
  | .curve4To e ctrl1 ctrl2 => (a4 start ctrl1 ctrl2 e).tail

/-- The command loop of `Path._approximate`: the running segment start
advances to each command's end point. -/
def approxSegments (a3 : Vec3 → Vec3 → Vec3 → List Vec3)
    (a4 : Vec3 → Vec3 → Vec3 → Vec3 → List Vec3) :
    Vec3 → List PathElement → List Vec3
  | _, [] => []
  | start, cmd :: rest =>
      segBlock a3 a4 start cmd ++ approxSegments a3 a4 cmd.endPoint rest

/-- Embeds `Path._approximate`, parametrized — as the source is — by the
two curve samplers: nothing for an empty command list, else the start
point followed by the per-command samples. -/
def Path._approximate (p : Path) (a3 : Vec3 → Vec3 → Vec3 → List Vec3)
    (a4 : Vec3 → Vec3 → Vec3 → Vec3 → List Vec3) : List Vec3 :=
  if p.commands = [] then []
  else p.start :: approxSegments a3 a4 p.start p.commands

/-- Embeds `Path.approximate` with the uniform Bézier samplers. -/
def Path.approximate (p : Path) (segments : Nat) : List Vec3 :=
  p._approximate
    (fun s c e => approximateP (bezier3Point ⟨s, c, e⟩) segments)
    (fun s c1 c2 e => approximateP (bezier4Point ⟨s, c1, c2, e⟩) segments)

/-- Embeds `Path.flattening` with the adaptive Bézier samplers. -/
def Path.flattening (p : Path) (distance : ℚ) (segments : Nat) : List Vec3 :=
  p._approximate
    (fun s c e => flatteningP (bezier3Point ⟨s, c, e⟩) distance segments)
    (fun s c1 c2 e =>
      flatteningP (bezier4Point ⟨s, c1, c2, e⟩) distance segments)

/-- A raw traversal element: the three supported command kinds plus the
`START_PATH` marker, the `Command` kind outside
LineTo/Curve3To/Curve4To that never appears in a `Path` built through
the mutation API. -/
inductive RawElement where
  | lineTo (e : Vec3)
  | curve3To (e ctrl : Vec3)
  | curve4To (e ctrl1 ctrl2 : Vec3)
  | startPath (e : Vec3)
deriving DecidableEq

/-- Decides membership of a raw element's kind in
{LineTo, Curve3To, Curve4To}. -/
def RawElement.isSupported : RawElement → Bool
  | .startPath _ => false
  | _ => true

/-- Embeds a supported command into the raw traversal type. -/
def RawElement.ofPathElement : PathElement → RawElement
  | .lineTo e => .lineTo e
  | .curve3To e ctrl => .curve3To e ctrl
  | .curve4To e ctrl1 ctrl2 => .curve4To e ctrl1 ctrl2

/-- The command loop of `Path._approximate` over raw elements, with the
defensive `else: raise ValueError` branch embedded as an error result. -/
def rawSegments (a3 : Vec3 → Vec3 → Vec3 → List Vec3)
    (a4 : Vec3 → Vec3 → Vec3 → Vec3 → List Vec3) :
    Vec3 → List RawElement → Except String (List Vec3)
  | _, [] => .ok []
  | start, cmd :: rest =>
      match cmd with
      | .lineTo e =>
          match rawSegments a3 a4 e rest with
          | .ok restPts => .ok (e :: restPts)
          | .error err => .error err
      | .curve3To e ctrl =>
          match rawSegments a3 a4 e rest with
          | .ok restPts => .ok ((a3 start ctrl e).tail ++ restPts)
          | .error err => .error err
      | .curve4To e ctrl1 ctrl2 =>
          match rawSegments a3 a4 e rest with
          | .ok restPts => .ok ((a4 start ctrl1 ctrl2 e).tail ++ restPts)
          | .error err => .error err
      | .startPath _ => .error "Invalid command"

/-- Embeds `Path._approximate` over raw elements, surfacing the
unsupported-command error. -/
def _approximateRaw (a3 : Vec3 → Vec3 → Vec3 → List Vec3)
    (a4 : Vec3 → Vec3 → Vec3 → Vec3 → List Vec3) (start : Vec3)
    (cmds : List RawElement) : Except String (List Vec3) :=
  if cmds = [] then .ok []
  else
    match rawSegments a3 a4 start cmds with
    | .ok pts => .ok (start :: pts)
    | .error err => .error err

/-- Modelled from the spec: the object-coordinate-system converter of
`ezdxf.math.OCS` (not under src/): whether it is a nontrivial transform,
plus the point map to the world frame. -/
structure OCS where
  transform : Bool
  to_wcs : Vec3 → Vec3

/-- Embeds the per-command `to_wcs`: override z with the elevation, then
map every held point to the world frame. -/
def PathElement.to_wcs (ocs : OCS) (elevation : ℚ) :
    PathElement → PathElement
  | .lineTo e => .lineTo (ocs.to_wcs (e.replaceZ elevation))
  | .curve3To e ctrl =>
      .curve3To (ocs.to_wcs (e.replaceZ elevation))
        (ocs.to_wcs (ctrl.replaceZ elevation))
  | .curve4To e ctrl1 ctrl2 =>
      .curve4To (ocs.to_wcs (e.replaceZ elevation))
        (ocs.to_wcs (ctrl1.replaceZ elevation))
        (ocs.to_wcs (ctrl2.replaceZ elevation))

/-- Embeds `Path._to_wcs`: map the start point and every command. -/
def Path._to_wcs (p : Path) (ocs : OCS) (elevation : ℚ) : Path :=
  ⟨ocs.to_wcs (p.start.replaceZ elevation),
   p.commands.map (PathElement.to_wcs ocs elevation)⟩

/-- Modelled from the spec: the composite bulge-to-curves conversion
(`bulge_to_arc`, `ConstructionEllipse.from_arc`,
`cubic_bezier_from_ellipse` of `ezdxf.math`, none under src/) is taken as
the parameter `curvesOf`; the nested `bulge_to` of `add_2d_polyline` is
embedded from src: skip coincident points, orient the generated curves so
their start matches the first point, and append them via `add_curves4`. -/
def bulge_to (curvesOf : Vec3 → Vec3 → ℚ → List Bezier4P) (path : Path)
    (p1 p2 : Vec3) (bulge : ℚ) : Path :=
  if p1.isclose p2 defaultAbsTol then path
  else
    let curves := curvesOf p1 p2 bulge
    let curves :=
      match curves.head? with
      | some curve0 =>
          if curve0.p0.isclose p2 defaultAbsTol then
            _reverse_bezier_curves Bezier4P.reverse curves
          else curves
      | none => curves
    path.add_curves4 curves

/-- The vertex loop of `add_2d_polyline`, carrying the previous point and
previous bulge; near-zero bulges snap to 0, and the first vertex
overwrites the start point directly (`self._start = point`), bypassing
the start setter. -/
def add2dPolylineLoop (curvesOf : Vec3 → Vec3 → ℚ → List Bezier4P) :
    List (ℚ × ℚ × ℚ) → Option Vec3 → ℚ → Path → Path × Option Vec3 × ℚ
  | [], prevPoint, prevBulge, path => (path, prevPoint, prevBulge)
  | (x, y, b) :: rest, prevPoint, prevBulge, path =>
      let bulge := if |b| < 1 / 1000000 then 0 else b
      let point : Vec3 := ⟨x, y, 0⟩
      match prevPoint with
      | none =>
          add2dPolylineLoop curvesOf rest (some point) bulge
            { path with start := point }
      | some pp =>
          add2dPolylineLoop curvesOf rest (some point) bulge
            (if prevBulge ≠ 0 then bulge_to curvesOf path pp point prevBulge
             else path.line_to point)

/-- The closing step of `add_2d_polyline`: when requested and the path is
not yet closed, close with a final bulge arc (the last bulge) or a
straight line. -/
def add2dPolylineClose (curvesOf : Vec3 → Vec3 → ℚ → List Bezier4P)
    (close : Bool) (res : Path × Option Vec3 × ℚ) : Path :=
  let path := res.1
  let prevBulge := res.2.2
  if close ∧ ¬(path.start.isclose path.endPoint defaultAbsTol) then
    if prevBulge ≠ 0 then
      bulge_to curvesOf path path.endPoint path.start prevBulge
    else path.line_to path.start
  else path

/-- The final world-frame pass of `add_2d_polyline`: transform when the
frame is nontrivial or the elevation nonzero. -/
def add2dPolylineWcs (ocs : OCS) (elevation : ℚ) (path : Path) : Path :=
  if ocs.transform ∨ elevation ≠ 0 then path._to_wcs ocs elevation else path

/-- Embeds `Path.add_2d_polyline` (parametric in the external bulge-curve
conversion): consume the `(x, y, bulge)` triples, close when requested,
then transform the whole path to the world frame in one final pass. -/
def Path.add_2d_polyline (p : Path)
    (curvesOf : Vec3 → Vec3 → ℚ → List Bezier4P)
    (points : List (ℚ × ℚ × ℚ)) (close : Bool) (ocs : OCS)
    (elevation : ℚ) : Path :=
  add2dPolylineWcs ocs elevation
    (add2dPolylineClose curvesOf close
      (add2dPolylineLoop curvesOf points none 0 p))

/-- Modelled from the spec: the elliptical-arc parameters consumed by
`add_ellipse` (`ezdxf.math.ConstructionEllipse`, not under src/), reduced
to the parametric span and start point the source reads. -/
structure ConstructionEllipse where
  param_span : ℚ
  start_point : Vec3

/-- Embeds `Path.add_ellipse` (parametric in the external
`cubic_bezier_from_ellipse` conversion): skip a ~zero-span arc, reset the
start of an empty path to the ellipse start (through the start setter,
whose guard is satisfied), then append the curves via `add_curves4`. -/
def Path.add_ellipse (p : Path)
    (bezFrom : ConstructionEllipse → Nat → List Bezier4P)
    (ellipse : ConstructionEllipse) (segments : Nat) (reset : Bool) :
    Path :=
  if |ellipse.param_span| < 1 / 1000000000 then p
  else
    let p :=
      if p.commands.length = 0 ∧ reset then
        { p with start := ellipse.start_point }
      else p
    p.add_curves4 (bezFrom ellipse segments)

/-- Modelled from the spec: the B-spline consumed by `add_spline`
(`ezdxf.math.BSpline`, not under src/), reduced to the fields and
conversions the source reads: degree, rational and clamped flags, the
point at parameter 0, the exact cubic decomposition, and the generic
cubic approximation per subdivision level. -/
structure BSpline where
  degree : Nat
  is_rational : Bool
  is_clamped : Bool
  point0 : Vec3
  bezier_decomposition : List Bezier4P
  cubic_bezier_approximation : Nat → List Bezier4P

/-- Embeds `Path.add_spline`: reset the start of an empty path to the
spline's first point, decompose exactly for clamped non-rational cubic
splines, else approximate, and append via `add_curves4`. -/
def Path.add_spline (p : Path) (spline : BSpline) (level : Nat)
    (reset : Bool) : Path :=
  let p :=
    if p.commands.length = 0 ∧ reset then { p with start := spline.point0 }
    else p
  let curves :=
    if spline.degree = 3 ∧ ¬spline.is_rational ∧ spline.is_clamped then
      spline.bezier_decomposition
    else spline.cubic_bezier_approximation level
  p.add_curves4 curves

-- Helper lemmas about `endPoint` under appends.
theorem Path.endPoint_append_cmd (p : Path) (cmd : PathElement) :
    Path.endPoint { p with commands := p.commands ++ [cmd] } = cmd.endPoint := by
  simp [Path.endPoint]

theorem Path.endPoint_line_to (p : Path) (v : Vec3) :
    (p.line_to v).endPoint = v :=
  Path.endPoint_append_cmd p _

theorem Vec3.isclose_refl (a : Vec3) : a.isclose a defaultAbsTol = true := by
  simp [Vec3.isclose, defaultAbsTol]

theorem pathEnd_append (s : Vec3) (xs ys : List PathElement) :
    pathEnd s (xs ++ ys) = pathEnd (pathEnd s xs) ys := by
  induction xs generalizing s with
  | nil => simp [pathEnd]
  | cons c cs ih => simp [pathEnd, ih]

theorem pathEnd_eq_endPoint (cmds : List PathElement) (s : Vec3) :
    pathEnd s cmds = Path.endPoint ⟨s, cmds⟩ := by
  induction cmds using List.reverseRecOn with
  | nil => simp [pathEnd, Path.endPoint]
  | append_singleton ys y ih =>
    rw [pathEnd_append]
    simp [pathEnd, Path.endPoint, List.getLast?_concat]

theorem Path.close_start (p : Path) : p.close.start = p.start := by
  unfold Path.close
  split <;> simp [Path.line_to]

theorem Path.line_to_is_closed (p : Path) :
    (p.line_to p.start).is_closed = true := by
  rw [Path.is_closed, Path.endPoint_line_to]
  show p.start.isclose p.start defaultAbsTol = true
  exact Vec3.isclose_refl p.start

/-- C5: `end` equals `start` on an empty path, and the last command's
end point otherwise. -/
theorem end_consistency (p : Path) :
    (p.commands = [] → p.endPoint = p.start) ∧
    (∀ h : p.commands ≠ [], p.endPoint = (p.commands.getLast h).endPoint) := by
  constructor
  · intro h
    simp [Path.endPoint, h]
  · intro h
    simp [Path.endPoint, List.getLast?_eq_getLast _ h]

theorem end_consistency_witness :
    (Path.endPoint ⟨⟨1, 2, 3⟩, []⟩ = ⟨1, 2, 3⟩) ∧
    (Path.endPoint ⟨⟨1, 2, 3⟩, [.lineTo ⟨4, 5, 6⟩]⟩ =
      PathElement.endPoint ((⟨⟨1, 2, 3⟩, [.lineTo ⟨4, 5, 6⟩]⟩ : Path).commands.getLast
        (by decide))) :=
  ⟨(end_consistency ⟨⟨1, 2, 3⟩, []⟩).1 rfl,
   (end_consistency ⟨⟨1, 2, 3⟩, [.lineTo ⟨4, 5, 6⟩]⟩).2 (by decide)⟩

/-- C6: assigning `start` succeeds on an empty path (setting the start
point and touching nothing else) and fails with the invalid-state error on
a path that already holds a command, leaving the path unchanged. -/
theorem start_setter_spec (p : Path) (v : Vec3) :
    (p.commands = [] → p.setStart v = .ok { p with start := v }) ∧
    (p.commands ≠ [] → p.setStart v = .error "Requires an empty path.") := by
  constructor
  · intro h
    simp [Path.setStart, h]
  · intro h
    rw [Path.setStart, if_pos]
    simpa using h

theorem start_setter_spec_witness :
    (Path.setStart ⟨NULLVEC, []⟩ ⟨1, 2, 3⟩ = .ok ⟨⟨1, 2, 3⟩, []⟩) ∧
    (Path.setStart ⟨NULLVEC, [.lineTo ⟨1, 0, 0⟩]⟩ ⟨1, 2, 3⟩ =
      .error "Requires an empty path.") :=
  ⟨(start_setter_spec ⟨NULLVEC, []⟩ ⟨1, 2, 3⟩).1 rfl,
   (start_setter_spec ⟨NULLVEC, [.lineTo ⟨1, 0, 0⟩]⟩ ⟨1, 2, 3⟩).2 (by decide)⟩

/-- C7: `close()` appends one `LineTo(start)` exactly when the path is not
already closed, is a no-op on a closed path, leaves the path closed, and is
idempotent (so two calls in a row append at most one command in total). -/
theorem close_spec (p : Path) :
    (p.is_closed = true → p.close = p) ∧
    (p.is_closed = false → p.close.commands = p.commands ++ [.lineTo p.start]) ∧
    p.close.is_closed = true ∧
    p.close.close = p.close ∧
    p.close.commands.length ≤ p.commands.length + 1 := by
  have hclosed : p.close.is_closed = true := by
    cases h : p.is_closed with
    | true => simp [Path.close, h]
    | false =>
      rw [Path.close, if_neg (by simp [h])]
      exact p.line_to_is_closed
  refine ⟨?_, ?_, hclosed, ?_, ?_⟩
  · intro h
    simp [Path.close, h]
  · intro h
    rw [Path.close, if_neg (by simp [h])]
    simp [Path.line_to]
  · rw [Path.close, if_pos (by simp [hclosed])]
  · cases h : p.is_closed with
    | true => simp [Path.close, h]
    | false =>
      rw [Path.close, if_neg (by simp [h])]
      simp [Path.line_to]

theorem endPoint_reversedCmd (cmd : PathElement) (v : Vec3) :
    (reversedCmd cmd v).endPoint = v := by
  cases cmd <;> rfl

theorem reversedCmd_reversedCmd (cmd : PathElement) (v : Vec3) :
    reversedCmd (reversedCmd cmd v) cmd.endPoint = cmd := by
  cases cmd <;> rfl

theorem revCmds_append (s : Vec3) (xs ys : List PathElement) :
    revCmds s (xs ++ ys) = revCmds (pathEnd s xs) ys ++ revCmds s xs := by
  induction xs generalizing s with
  | nil => simp [revCmds, pathEnd]
  | cons c cs ih => simp [revCmds, pathEnd, ih]

theorem revCmds_ne_nil (s : Vec3) (cmds : List PathElement) (h : cmds ≠ []) :
    revCmds s cmds ≠ [] := by
  cases cmds with
  | nil => exact absurd rfl h
  | cons c cs => simp [revCmds]

theorem pathEnd_revCmds (s u : Vec3) (cmds : List PathElement) (h : cmds ≠ []) :
    pathEnd u (revCmds s cmds) = s := by
  cases cmds with
  | nil => exact absurd rfl h
  | cons c cs =>
    rw [revCmds, pathEnd_append]
    simp [pathEnd, endPoint_reversedCmd]

theorem revCmds_revCmds (cmds : List PathElement) (s : Vec3) :
    revCmds (pathEnd s cmds) (revCmds s cmds) = cmds := by
  induction cmds generalizing s with
  | nil => simp [revCmds, pathEnd]
  | cons c cs ih =>
    rw [pathEnd, revCmds, revCmds_append]
    have hmid : pathEnd (pathEnd c.endPoint cs) (revCmds c.endPoint cs)
        = c.endPoint := by
      cases cs with
      | nil => simp [revCmds, pathEnd]
      | cons c2 cs2 => exact pathEnd_revCmds _ _ _ (by simp)
    rw [hmid, ih]
    simp [revCmds, endPoint_reversedCmd, reversedCmd_reversedCmd]

theorem pathEnd_take (l : List PathElement) (i : Nat) (s : Vec3)
    (hi : i ≤ l.length) :
    pathEnd s (l.take i) =
      (if i = 0 then s else (l.getD (i - 1) (.lineTo NULLVEC)).endPoint) := by
  induction l generalizing i s with
  | nil =>
    cases Nat.le_zero.mp hi
    simp [pathEnd]
  | cons c cs ih =>
    cases i with
    | zero => simp [pathEnd]
    | succ j =>
      rw [List.take_succ_cons, pathEnd, ih j c.endPoint (by simpa using hi)]
      cases j with
      | zero => simp
      | succ k => simp

theorem reversedAux_spec (p : Path) (i : Nat) (hi : i ≤ p.commands.length)
    (acc : Path) :
    p.reversedAux i acc =
      ⟨acc.start, acc.commands ++ revCmds p.start (p.commands.take i)⟩ := by
  induction i generalizing acc with
  | zero => simp [Path.reversedAux, revCmds]
  | succ j ih =>
    have hj : j < p.commands.length := hi
    have hstep : p.reversedAux (j + 1) acc = p.reversedAux j
        ⟨acc.start, acc.commands ++
          [reversedCmd (p.commands.getD j (.lineTo NULLVEC))
            (if j > 0 then (p.commands.getD (j - 1) (.lineTo NULLVEC)).endPoint
             else p.start)]⟩ := by
      rw [Path.reversedAux]
      cases hc : p.commands.getD j (.lineTo NULLVEC) <;>
        simp [hc, reversedCmd, Path.line_to, Path.curve3_to, Path.curve4_to]
    rw [hstep, ih (Nat.le_of_lt hj)]
    have htake : p.commands.take (j + 1) =
        p.commands.take j ++ [p.commands.getD j (.lineTo NULLVEC)] := by
      rw [List.take_succ, List.getD_eq_getElem?_getD,
        List.getElem?_eq_getElem hj]
      simp
    rw [htake, revCmds_append, pathEnd_take _ _ _ (Nat.le_of_lt hj)]
    rcases Nat.eq_zero_or_pos j with h0 | h0
    · subst h0
      simp [revCmds]
    · simp [revCmds, h0, Nat.pos_iff_ne_zero.mp h0]

theorem reversed_eq_revCmds (p : Path) (h : p.commands ≠ []) :
    p.reversed = ⟨p.endPoint, revCmds p.start p.commands⟩ := by
  rw [Path.reversed, if_neg (by simpa using h),
    reversedAux_spec p _ (Nat.le_refl _)]
  simp

theorem pathEnd_start_commands (p : Path) :
    pathEnd p.start p.commands = p.endPoint := by
  rw [pathEnd_eq_endPoint]

theorem revCmds_eq_zip (s : Vec3) (cmds : List PathElement) :
    revCmds s cmds =
      ((cmds.zip (s :: cmds.map PathElement.endPoint)).map
        (fun pr => reversedCmd pr.1 pr.2)).reverse := by
  induction cmds generalizing s with
  | nil => simp [revCmds]
  | cons c cs ih => simp [revCmds, ih]

/-- C4 (amended): reversing a non-empty path yields the path starting at
the old end point whose commands are the original commands in reversed
traversal order, each paired with the preceding original end point (the
original start for the head command) as its new end; `Curve4To` swaps its
control points, `Curve3To` keeps its control point, `LineTo` carries only
the new end.  An empty path reverses to the empty default path
`⟨NULLVEC, []⟩`: its original start point is not kept. -/
theorem reversed_spec (p : Path) :
    (p.commands = [] → p.reversed = ⟨NULLVEC, []⟩) ∧
    (p.commands ≠ [] →
      p.reversed.start = p.endPoint ∧
      p.reversed.commands =
        ((p.commands.zip (p.start :: p.commands.map PathElement.endPoint)).map
          (fun pr => reversedCmd pr.1 pr.2)).reverse) := by
  constructor
  · intro h
    rw [Path.reversed, if_pos (by simp [h])]
  · intro h
    rw [reversed_eq_revCmds p h]
    exact ⟨rfl, revCmds_eq_zip p.start p.commands⟩

theorem reversed_spec_witness :
    (Path.reversed ⟨⟨0, 0, 0⟩,
        [.lineTo ⟨1, 0, 0⟩, .curve4To ⟨2, 1, 0⟩ ⟨3, 0, 0⟩ ⟨4, 0, 0⟩]⟩).start =
      Path.endPoint ⟨⟨0, 0, 0⟩,
        [.lineTo ⟨1, 0, 0⟩, .curve4To ⟨2, 1, 0⟩ ⟨3, 0, 0⟩ ⟨4, 0, 0⟩]⟩ :=
  ((reversed_spec _).2 (by decide)).1

/-- C4 counterexample: for the empty path with start `(1,0,0)`, `reversed`
does not start at the path's end point — the claim's start clause fails on
empty paths. -/
theorem reversed_spec_counterexample :
    (Path.reversed ⟨⟨1, 0, 0⟩, []⟩).start ≠
      Path.endPoint ⟨⟨1, 0, 0⟩, []⟩ := by decide

/-- C3 (amended): for every non-empty path, reversing twice restores the
path exactly — same start, same command kinds in the same order, and the
same control points. -/
theorem reversed_reversed (p : Path) (h : p.commands ≠ []) :
    p.reversed.reversed = p := by
  rw [reversed_eq_revCmds p h,
    reversed_eq_revCmds _ (revCmds_ne_nil p.start p.commands h)]
  have h1 : Path.endPoint ⟨p.endPoint, revCmds p.start p.commands⟩ = p.start := by
    rw [← pathEnd_eq_endPoint]
    exact pathEnd_revCmds p.start p.endPoint p.commands h
  have h2 : revCmds p.endPoint (revCmds p.start p.commands) = p.commands := by
    rw [← pathEnd_start_commands]
    exact revCmds_revCmds p.commands p.start
  rw [h1, h2]

theorem reversed_reversed_witness :
    Path.reversed (Path.reversed ⟨⟨5, 0, 0⟩,
      [.curve3To ⟨2, 1, 0⟩ ⟨3, 3, 0⟩, .lineTo ⟨0, 7, 0⟩]⟩) =
      ⟨⟨5, 0, 0⟩, [.curve3To ⟨2, 1, 0⟩ ⟨3, 3, 0⟩, .lineTo ⟨0, 7, 0⟩]⟩ :=
  reversed_reversed _ (by decide)

/-- C3 counterexample: for the empty path with start `(1,0,0)`,
double reversal produces start `(0,0,0)`, not the original start (not even
within the point tolerance). -/
theorem reversed_reversed_counterexample :
    Vec3.isclose (Path.reversed (Path.reversed ⟨⟨1, 0, 0⟩, []⟩)).start
      ⟨1, 0, 0⟩ defaultAbsTol = false := by decide

theorem foldl_addCurve4Step (curves : List Bezier4P) (p : Path) :
    curves.foldl addCurve4Step p =
      ⟨p.start, p.commands ++ chain4 p.endPoint curves⟩ := by
  induction curves generalizing p with
  | nil => simp [chain4]
  | cons c cs ih =>
    rw [List.foldl_cons, ih]
    by_cases hc : c.p0.isclose p.endPoint lineConnectionTol = true
    · have h1 : addCurve4Step p c = p.curve4_to c.p3 c.p1 c.p2 := by
        simp [addCurve4Step, hc]
      rw [h1]
      simp [chain4, hc, Path.curve4_to, Path.endPoint_append_cmd,
        PathElement.endPoint]
    · have h1 : addCurve4Step p c =
          (p.line_to c.p0).curve4_to c.p3 c.p1 c.p2 := by
        simp [addCurve4Step, hc]
      rw [h1]
      have h2 : ((p.line_to c.p0).curve4_to c.p3 c.p1 c.p2).endPoint
          = c.p3 := Path.endPoint_append_cmd _ _
      rw [h2]
      simp [chain4, hc, Path.curve4_to, Path.line_to]

theorem foldl_addCurve3Step (curves : List Bezier3P) (p : Path) :
    curves.foldl addCurve3Step p =
      ⟨p.start, p.commands ++ chain3 p.endPoint curves⟩ := by
  induction curves generalizing p with
  | nil => simp [chain3]
  | cons c cs ih =>
    rw [List.foldl_cons, ih]
    by_cases hc : c.p0.isclose p.endPoint lineConnectionTol = true
    · have h1 : addCurve3Step p c = p.curve3_to c.p2 c.p1 := by
        simp [addCurve3Step, hc]
      rw [h1]
      simp [chain3, hc, Path.curve3_to, Path.endPoint_append_cmd,
        PathElement.endPoint]
    · have h1 : addCurve3Step p c =
          (p.line_to c.p0).curve3_to c.p2 c.p1 := by
        simp [addCurve3Step, hc]
      rw [h1]
      have h2 : ((p.line_to c.p0).curve3_to c.p2 c.p1).endPoint
          = c.p2 := Path.endPoint_append_cmd _ _
      rw [h2]
      simp [chain3, hc, Path.curve3_to, Path.line_to]

/-- C1: for a non-empty curve list, `add_curves4` (resp. `add_curves3`)
reverses the whole list — each curve's own point order, then the list
order — exactly when the path end is within tolerance of the **last**
curve's end point (only the chain extremities are compared), and then
appends per curve a connecting `LineTo` to the curve's start exactly when
that start is not within tolerance of the running end, followed by the
curve as a `Curve4To` (resp. `Curve3To`) command. -/
theorem add_curves_spec :
    (∀ (p : Path) (curves : List Bezier4P) (h : curves ≠ []),
      p.add_curves4 curves = ⟨p.start, p.commands ++ chain4 p.endPoint
        (if p.endPoint.isclose (curves.getLast h).p3 defaultAbsTol then
          _reverse_bezier_curves Bezier4P.reverse curves
         else curves)⟩) ∧
    (∀ (p : Path) (curves : List Bezier3P) (h : curves ≠ []),
      p.add_curves3 curves = ⟨p.start, p.commands ++ chain3 p.endPoint
        (if p.endPoint.isclose (curves.getLast h).p2 defaultAbsTol then
          _reverse_bezier_curves Bezier3P.reverse curves
         else curves)⟩) := by
  constructor
  · intro p curves h
    have e : p.add_curves4 curves =
        (if p.endPoint.isclose (curves.getLast h).p3 defaultAbsTol then
          _reverse_bezier_curves Bezier4P.reverse curves
         else curves).foldl addCurve4Step p := by
      rw [Path.add_curves4, List.getLast?_eq_getLast _ h]
    rw [e, foldl_addCurve4Step]
  · intro p curves h
    have e : p.add_curves3 curves =
        (if p.endPoint.isclose (curves.getLast h).p2 defaultAbsTol then
          _reverse_bezier_curves Bezier3P.reverse curves
         else curves).foldl addCurve3Step p := by
      rw [Path.add_curves3, List.getLast?_eq_getLast _ h]
    rw [e, foldl_addCurve3Step]

theorem add_curves_spec_witness :
    Path.add_curves4 ⟨NULLVEC, []⟩
        [⟨⟨5, 0, 0⟩, ⟨6, 0, 0⟩, ⟨7, 0, 0⟩, ⟨8, 0, 0⟩⟩] =
      ⟨NULLVEC, [.lineTo ⟨5, 0, 0⟩, .curve4To ⟨8, 0, 0⟩ ⟨6, 0, 0⟩ ⟨7, 0, 0⟩]⟩ := by
  rw [add_curves_spec.1 ⟨NULLVEC, []⟩
    [⟨⟨5, 0, 0⟩, ⟨6, 0, 0⟩, ⟨7, 0, 0⟩, ⟨8, 0, 0⟩⟩] (by decide)]
  decide

theorem close_spec_witness :
    (Path.close ⟨NULLVEC, [.lineTo ⟨2, 0, 0⟩]⟩).commands =
      [.lineTo ⟨2, 0, 0⟩, .lineTo NULLVEC] :=
  (close_spec ⟨NULLVEC, [.lineTo ⟨2, 0, 0⟩]⟩).2.1 (by decide)

theorem Vec3.ext3 (a b : Vec3) (hx : a.x = b.x) (hy : a.y = b.y)
    (hz : a.z = b.z) : a = b := by
  cases a
  cases b
  simp_all

theorem bezier3Point_zero (c : Bezier3P) : bezier3Point c 0 = c.p0 := by
  apply Vec3.ext3 <;> simp [bezier3Point, Vec3.add, Vec3.smul]

theorem bezier3Point_one (c : Bezier3P) : bezier3Point c 1 = c.p2 := by
  apply Vec3.ext3 <;> simp [bezier3Point, Vec3.add, Vec3.smul]

theorem bezier4Point_zero (c : Bezier4P) : bezier4Point c 0 = c.p0 := by
  apply Vec3.ext3 <;> simp [bezier4Point, Vec3.add, Vec3.smul]

theorem bezier4Point_one (c : Bezier4P) : bezier4Point c 1 = c.p3 := by
  apply Vec3.ext3 <;> simp [bezier4Point, Vec3.add, Vec3.smul]

theorem getLast?_cons_of_ne_nil {α : Type} (a : α) (l : List α)
    (h : l ≠ []) : (a :: l).getLast? = l.getLast? := by
  cases l with
  | nil => exact absurd rfl h
  | cons b t => simp

theorem tail_getLast? {α : Type} (l : List α) (h : l.tail ≠ []) :
    l.tail.getLast? = l.getLast? := by
  cases l with
  | nil => simp at h
  | cons a t => exact (getLast?_cons_of_ne_nil a t h).symm

theorem approximateP_head (f : ℚ → Vec3) (n : Nat) :
    (approximateP f n).head? = some (f 0) := by
  rw [approximateP, List.range_succ_eq_map]
  simp

theorem approximateP_getLast (f : ℚ → Vec3) (n : Nat) (h : 1 ≤ n) :
    (approximateP f n).getLast? = some (f 1) := by
  have hn : (n : ℚ) ≠ 0 := Nat.cast_ne_zero.mpr (by omega)
  rw [approximateP, List.range_succ, List.map_append, List.getLast?_append]
  simp [div_self hn]

theorem approximateP_tail_ne_nil (f : ℚ → Vec3) (n : Nat) (h : 1 ≤ n) :
    (approximateP f n).tail ≠ [] := by
  apply List.ne_nil_of_length_pos
  rw [List.length_tail]
  simp [approximateP]
  omega

theorem flattenSub_ne_nil (f : ℚ → Vec3) (d : ℚ) (depth : Nat)
    (sp ep : Vec3) (t0 t1 : ℚ) :
    flattenSub f d depth sp ep t0 t1 ≠ [] := by
  induction depth generalizing sp ep t0 t1 with
  | zero => simp [flattenSub]
  | succ k ih =>
    simp only [flattenSub]
    split
    · simp
    · intro hcon
      rcases List.append_eq_nil.mp hcon with ⟨h1, _⟩
      exact ih _ _ _ _ h1

theorem flattenSub_getLast (f : ℚ → Vec3) (d : ℚ) (depth : Nat)
    (sp ep : Vec3) (t0 t1 : ℚ) :
    (flattenSub f d depth sp ep t0 t1).getLast? = some ep := by
  induction depth generalizing sp ep t0 t1 with
  | zero => simp [flattenSub]
  | succ k ih =>
    simp only [flattenSub]
    split
    · simp
    · rw [List.getLast?_append, ih, ih]
      rfl

theorem flattenChunks_getLast (f : ℚ → Vec3) (d : ℚ) (n i : Nat)
    (h : 1 ≤ i) :
    (flattenChunks f d n i).getLast? = some (f ((i : ℚ) / (n : ℚ))) := by
  cases i with
  | zero => omega
  | succ j =>
    rw [flattenChunks, List.getLast?_append, flattenSub_getLast]
    simp

theorem flattenChunks_ne_nil (f : ℚ → Vec3) (d : ℚ) (n i : Nat)
    (h : 1 ≤ i) : flattenChunks f d n i ≠ [] := by
  intro hcon
  have := flattenChunks_getLast f d n i h
  rw [hcon] at this
  simp at this

theorem flatteningP_head (f : ℚ → Vec3) (d : ℚ) (n : Nat) :
    (flatteningP f d n).head? = some (f 0) := rfl

theorem flatteningP_getLast (f : ℚ → Vec3) (d : ℚ) (n : Nat) (h : 1 ≤ n) :
    (flatteningP f d n).getLast? = some (f 1) := by
  have hn : (n : ℚ) ≠ 0 := Nat.cast_ne_zero.mpr (by omega)
  rw [flatteningP,
    getLast?_cons_of_ne_nil _ _ (flattenChunks_ne_nil f d n n h),
    flattenChunks_getLast f d n n h, div_self hn]

theorem flatteningP_tail_ne_nil (f : ℚ → Vec3) (d : ℚ) (n : Nat)
    (h : 1 ≤ n) : (flatteningP f d n).tail ≠ [] := by
  rw [flatteningP]
  exact flattenChunks_ne_nil f d n n h

theorem approxSegments_getLast (a3 : Vec3 → Vec3 → Vec3 → List Vec3)
    (a4 : Vec3 → Vec3 → Vec3 → Vec3 → List Vec3)
    (hb : ∀ (s : Vec3) (cmd : PathElement),
      (segBlock a3 a4 s cmd).getLast? = some cmd.endPoint) :
    ∀ (cmds : List PathElement) (s : Vec3), cmds ≠ [] →
      (approxSegments a3 a4 s cmds).getLast? = some (pathEnd s cmds) := by
  intro cmds
  induction cmds with
  | nil => intro s h; exact absurd rfl h
  | cons c cs ih =>
    intro s _
    cases cs with
    | nil =>
      rw [approxSegments, approxSegments, List.append_nil, hb, pathEnd, pathEnd]
    | cons c2 cs2 =>
      rw [approxSegments, List.getLast?_append, ih c.endPoint (by simp), pathEnd]
      rfl

theorem approxSegments_append (a3 : Vec3 → Vec3 → Vec3 → List Vec3)
    (a4 : Vec3 → Vec3 → Vec3 → Vec3 → List Vec3) :
    ∀ (xs ys : List PathElement) (s : Vec3),
      approxSegments a3 a4 s (xs ++ ys) =
        approxSegments a3 a4 s xs ++ approxSegments a3 a4 (pathEnd s xs) ys := by
  intro xs
  induction xs with
  | nil => intro ys s; simp [approxSegments, pathEnd]
  | cons c cs ih =>
    intro ys s
    rw [List.cons_append, approxSegments, approxSegments, ih, pathEnd,
      List.append_assoc]

theorem _approximate_empty (p : Path) (a3 : Vec3 → Vec3 → Vec3 → List Vec3)
    (a4 : Vec3 → Vec3 → Vec3 → Vec3 → List Vec3) (h : p.commands = []) :
    p._approximate a3 a4 = [] := by
  rw [Path._approximate, if_pos h]

theorem _approximate_head (p : Path) (a3 : Vec3 → Vec3 → Vec3 → List Vec3)
    (a4 : Vec3 → Vec3 → Vec3 → Vec3 → List Vec3) (h : p.commands ≠ []) :
    (p._approximate a3 a4).head? = some p.start := by
  rw [Path._approximate, if_neg h]
  rfl

theorem _approximate_getLast (p : Path) (a3 : Vec3 → Vec3 → Vec3 → List Vec3)
    (a4 : Vec3 → Vec3 → Vec3 → Vec3 → List Vec3)
    (hb : ∀ (s : Vec3) (cmd : PathElement),
      (segBlock a3 a4 s cmd).getLast? = some cmd.endPoint)
    (h : p.commands ≠ []) :
    (p._approximate a3 a4).getLast? = some p.endPoint := by
  rw [Path._approximate, if_neg h]
  have hseg := approxSegments_getLast a3 a4 hb p.commands p.start h
  have hne : approxSegments a3 a4 p.start p.commands ≠ [] := by
    intro hc
    rw [hc] at hseg
    simp at hseg
  rw [getLast?_cons_of_ne_nil _ _ hne, hseg, pathEnd_start_commands]

theorem _approximate_append_cmd (p : Path)
    (a3 : Vec3 → Vec3 → Vec3 → List Vec3)
    (a4 : Vec3 → Vec3 → Vec3 → Vec3 → List Vec3) (cmd : PathElement)
    (h : p.commands ≠ []) :
    Path._approximate { p with commands := p.commands ++ [cmd] } a3 a4 =
      p._approximate a3 a4 ++ segBlock a3 a4 p.endPoint cmd := by
  rw [Path._approximate, if_neg (by simp), Path._approximate, if_neg h]
  show p.start :: approxSegments a3 a4 p.start (p.commands ++ [cmd]) = _
  rw [approxSegments_append, pathEnd_start_commands]
  simp [approxSegments]

theorem segBlock_approx_getLast (n : Nat) (h : 1 ≤ n) :
    ∀ (s : Vec3) (cmd : PathElement),
      (segBlock (fun s c e => approximateP (bezier3Point ⟨s, c, e⟩) n)
        (fun s c1 c2 e => approximateP (bezier4Point ⟨s, c1, c2, e⟩) n)
        s cmd).getLast? = some cmd.endPoint := by
  intro s cmd
  cases cmd with
  | lineTo e => rfl
  | curve3To e ctrl =>
    show ((approximateP (bezier3Point ⟨s, ctrl, e⟩) n).tail).getLast?
      = some (PathElement.endPoint (.curve3To e ctrl))
    rw [tail_getLast? _ (approximateP_tail_ne_nil _ _ h),
      approximateP_getLast _ _ h, bezier3Point_one]
    rfl
  | curve4To e c1 c2 =>
    show ((approximateP (bezier4Point ⟨s, c1, c2, e⟩) n).tail).getLast?
      = some (PathElement.endPoint (.curve4To e c1 c2))
    rw [tail_getLast? _ (approximateP_tail_ne_nil _ _ h),
      approximateP_getLast _ _ h, bezier4Point_one]
    rfl

theorem segBlock_flatten_getLast (d : ℚ) (n : Nat) (h : 1 ≤ n) :
    ∀ (s : Vec3) (cmd : PathElement),
      (segBlock (fun s c e => flatteningP (bezier3Point ⟨s, c, e⟩) d n)
        (fun s c1 c2 e => flatteningP (bezier4Point ⟨s, c1, c2, e⟩) d n)
        s cmd).getLast? = some cmd.endPoint := by
  intro s cmd
  cases cmd with
  | lineTo e => rfl
  | curve3To e ctrl =>
    show ((flatteningP (bezier3Point ⟨s, ctrl, e⟩) d n).tail).getLast?
      = some (PathElement.endPoint (.curve3To e ctrl))
    rw [tail_getLast? _ (flatteningP_tail_ne_nil _ _ _ h),
      flatteningP_getLast _ _ _ h, bezier3Point_one]
    rfl
  | curve4To e c1 c2 =>
    show ((flatteningP (bezier4Point ⟨s, c1, c2, e⟩) d n).tail).getLast?
      = some (PathElement.endPoint (.curve4To e c1 c2))
    rw [tail_getLast? _ (flatteningP_tail_ne_nil _ _ _ h),
      flatteningP_getLast _ _ _ h, bezier4Point_one]
    rfl

/-- C2: `approximate(n)` (n ≥ 1) and `flattening(d, n)` (d > 0) yield no
points at all on an empty path; on a non-empty path the first yielded
point is `start` and the last is `end`; appending a `LineTo` contributes
exactly its end point regardless of the parameters; appending a curve
contributes its sampled segment with the segment's own start point —
which equals the path's running end, and would duplicate it at the
joint — skipped. -/
theorem sampling_spec (p : Path) (n : Nat) (d : ℚ)
    (v e ctrl c1 c2 : Vec3) (hn : 1 ≤ n) (hd : 0 < d) :
    (p.commands = [] → p.approximate n = [] ∧ p.flattening d n = []) ∧
    (p.commands ≠ [] →
      (p.approximate n).head? = some p.start ∧
      (p.approximate n).getLast? = some p.endPoint ∧
      (p.flattening d n).head? = some p.start ∧
      (p.flattening d n).getLast? = some p.endPoint) ∧
    (p.commands ≠ [] →
      (p.line_to v).approximate n = p.approximate n ++ [v] ∧
      (p.line_to v).flattening d n = p.flattening d n ++ [v]) ∧
    (p.commands ≠ [] →
      (p.curve3_to e ctrl).approximate n = p.approximate n ++
        (approximateP (bezier3Point ⟨p.endPoint, ctrl, e⟩) n).tail ∧
      (approximateP (bezier3Point ⟨p.endPoint, ctrl, e⟩) n).head? =
        some p.endPoint ∧
      (p.curve4_to e c1 c2).flattening d n = p.flattening d n ++
        (flatteningP (bezier4Point ⟨p.endPoint, c1, c2, e⟩) d n).tail ∧
      (flatteningP (bezier4Point ⟨p.endPoint, c1, c2, e⟩) d n).head? =
        some p.endPoint) := by
  refine ⟨?_, ?_, ?_, ?_⟩
  · intro h
    exact ⟨_approximate_empty p _ _ h, _approximate_empty p _ _ h⟩
  · intro h
    exact ⟨_approximate_head p _ _ h,
      _approximate_getLast p _ _ (segBlock_approx_getLast n hn) h,
      _approximate_head p _ _ h,
      _approximate_getLast p _ _ (segBlock_flatten_getLast d n hn) h⟩
  · intro h
    constructor
    · rw [Path.approximate, Path.approximate, Path.line_to,
        _approximate_append_cmd p _ _ _ h]
      rfl
    · rw [Path.flattening, Path.flattening, Path.line_to,
        _approximate_append_cmd p _ _ _ h]
      rfl
  · intro h
    refine ⟨?_, ?_, ?_, ?_⟩
    · rw [Path.approximate, Path.approximate, Path.curve3_to,
        _approximate_append_cmd p _ _ _ h]
      rfl
    · rw [approximateP_head, bezier3Point_zero]
    · rw [Path.flattening, Path.flattening, Path.curve4_to,
        _approximate_append_cmd p _ _ _ h]
      rfl
    · rw [flatteningP_head, bezier4Point_zero]

theorem sampling_spec_witness :
    (Path.approximate ⟨NULLVEC, [.lineTo ⟨2, 0, 0⟩]⟩ 4).head? =
      some (⟨NULLVEC, [.lineTo ⟨2, 0, 0⟩]⟩ : Path).start ∧
    (Path.approximate ⟨NULLVEC, [.lineTo ⟨2, 0, 0⟩]⟩ 4).getLast? =
      some (Path.endPoint ⟨NULLVEC, [.lineTo ⟨2, 0, 0⟩]⟩) ∧
    (Path.flattening ⟨NULLVEC, [.lineTo ⟨2, 0, 0⟩]⟩ 1 4).head? =
      some (⟨NULLVEC, [.lineTo ⟨2, 0, 0⟩]⟩ : Path).start ∧
    (Path.flattening ⟨NULLVEC, [.lineTo ⟨2, 0, 0⟩]⟩ 1 4).getLast? =
      some (Path.endPoint ⟨NULLVEC, [.lineTo ⟨2, 0, 0⟩]⟩) :=
  (sampling_spec ⟨NULLVEC, [.lineTo ⟨2, 0, 0⟩]⟩ 4 1 NULLVEC NULLVEC NULLVEC
    NULLVEC NULLVEC (by decide) (by decide)).2.1 (by decide)

theorem rawSegments_map_ofPathElement
    (a3 : Vec3 → Vec3 → Vec3 → List Vec3)
    (a4 : Vec3 → Vec3 → Vec3 → Vec3 → List Vec3) :
    ∀ (cmds : List PathElement) (s : Vec3),
      rawSegments a3 a4 s (cmds.map RawElement.ofPathElement) =
        .ok (approxSegments a3 a4 s cmds) := by
  intro cmds
  induction cmds with
  | nil => intro s; rfl
  | cons c cs ih =>
    intro s
    cases c with
    | lineTo e =>
      simp [rawSegments, RawElement.ofPathElement, approxSegments, segBlock,
        ih, PathElement.endPoint]
    | curve3To e ctrl =>
      simp [rawSegments, RawElement.ofPathElement, approxSegments, segBlock,
        ih, PathElement.endPoint]
    | curve4To e ctrl1 ctrl2 =>
      simp [rawSegments, RawElement.ofPathElement, approxSegments, segBlock,
        ih, PathElement.endPoint]

theorem rawSegments_error_iff (a3 : Vec3 → Vec3 → Vec3 → List Vec3)
    (a4 : Vec3 → Vec3 → Vec3 → Vec3 → List Vec3) :
    ∀ (cmds : List RawElement) (s : Vec3),
      rawSegments a3 a4 s cmds = .error "Invalid command" ↔
        ∃ cmd ∈ cmds, cmd.isSupported = false := by
  intro cmds
  induction cmds with
  | nil => intro s; simp [rawSegments]
  | cons c cs ih =>
    intro s
    cases c with
    | lineTo e =>
      have hih := ih e
      cases hr : rawSegments a3 a4 e cs with
      | ok val =>
        rw [hr] at hih
        simp only [rawSegments, hr]
        simp [RawElement.isSupported] at hih ⊢
        exact hih
      | error er =>
        rw [hr] at hih
        simp only [rawSegments, hr]
        simp [RawElement.isSupported] at hih ⊢
        exact hih
    | curve3To e ctrl =>
      have hih := ih e
      cases hr : rawSegments a3 a4 e cs with
      | ok val =>
        rw [hr] at hih
        simp only [rawSegments, hr]
        simp [RawElement.isSupported] at hih ⊢
        exact hih
      | error er =>
        rw [hr] at hih
        simp only [rawSegments, hr]
        simp [RawElement.isSupported] at hih ⊢
        exact hih
    | curve4To e ctrl1 ctrl2 =>
      have hih := ih e
      cases hr : rawSegments a3 a4 e cs with
      | ok val =>
        rw [hr] at hih
        simp only [rawSegments, hr]
        simp [RawElement.isSupported] at hih ⊢
        exact hih
      | error er =>
        rw [hr] at hih
        simp only [rawSegments, hr]
        simp [RawElement.isSupported] at hih ⊢
        exact hih
    | startPath e =>
      simp [rawSegments, RawElement.isSupported]

/-- C8: the traversal shared by `approximate` and `flattening` fails with
the unsupported-command error exactly when some traversed command's kind
is outside LineTo/Curve3To/Curve4To; on the image of the typed command
sequence of any `Path` — all a path built through the public mutation API
can hold — the traversal always succeeds and the error branch is
unreachable. -/
theorem unsupported_command_spec :
    (∀ (a3 : Vec3 → Vec3 → Vec3 → List Vec3)
       (a4 : Vec3 → Vec3 → Vec3 → Vec3 → List Vec3)
       (s : Vec3) (cmds : List RawElement),
      _approximateRaw a3 a4 s cmds = .error "Invalid command" ↔
        ∃ cmd ∈ cmds, cmd.isSupported = false) ∧
    (∀ (a3 : Vec3 → Vec3 → Vec3 → List Vec3)
       (a4 : Vec3 → Vec3 → Vec3 → Vec3 → List Vec3) (p : Path),
      _approximateRaw a3 a4 p.start
          (p.commands.map RawElement.ofPathElement) =
        .ok (p._approximate a3 a4)) := by
  constructor
  · intro a3 a4 s cmds
    cases cmds with
    | nil => simp [_approximateRaw]
    | cons c cs =>
      have hiff := rawSegments_error_iff a3 a4 (c :: cs) s
      rw [_approximateRaw, if_neg (by simp)]
      cases hr : rawSegments a3 a4 s (c :: cs) with
      | ok val =>
        rw [hr] at hiff
        simp at hiff ⊢
        exact hiff
      | error er =>
        rw [hr] at hiff
        simpa using hiff
  · intro a3 a4 p
    by_cases h : p.commands = []
    · rw [_approximateRaw, if_pos (by simp [h]), _approximate_empty p _ _ h]
    · rw [_approximateRaw, if_neg (by simp [h]),
        rawSegments_map_ofPathElement a3 a4 p.commands p.start,
        Path._approximate, if_neg h]

theorem Path.add_curves4_start (p : Path) (curves : List Bezier4P) :
    (p.add_curves4 curves).start = p.start := by
  cases curves with
  | nil => rfl
  | cons c cs =>
    have e : p.add_curves4 (c :: cs) =
        (if p.endPoint.isclose ((c :: cs).getLast (by simp)).p3
            defaultAbsTol then
          _reverse_bezier_curves Bezier4P.reverse (c :: cs)
         else (c :: cs)).foldl addCurve4Step p := by
      rw [Path.add_curves4, List.getLast?_eq_getLast _ (by simp)]
    rw [e, foldl_addCurve4Step]

theorem Path.add_curves4_commands (p : Path) (curves : List Bezier4P) :
    ∃ tail, (p.add_curves4 curves).commands = p.commands ++ tail := by
  cases curves with
  | nil => exact ⟨[], by simp [Path.add_curves4]⟩
  | cons c cs =>
    have e : p.add_curves4 (c :: cs) =
        (if p.endPoint.isclose ((c :: cs).getLast (by simp)).p3
            defaultAbsTol then
          _reverse_bezier_curves Bezier4P.reverse (c :: cs)
         else (c :: cs)).foldl addCurve4Step p := by
      rw [Path.add_curves4, List.getLast?_eq_getLast _ (by simp)]
    exact ⟨_, by rw [e, foldl_addCurve4Step]⟩

theorem Path.add_curves3_start (p : Path) (curves : List Bezier3P) :
    (p.add_curves3 curves).start = p.start := by
  cases curves with
  | nil => rfl
  | cons c cs =>
    have e : p.add_curves3 (c :: cs) =
        (if p.endPoint.isclose ((c :: cs).getLast (by simp)).p2
            defaultAbsTol then
          _reverse_bezier_curves Bezier3P.reverse (c :: cs)
         else (c :: cs)).foldl addCurve3Step p := by
      rw [Path.add_curves3, List.getLast?_eq_getLast _ (by simp)]
    rw [e, foldl_addCurve3Step]

theorem Path.add_curves3_commands (p : Path) (curves : List Bezier3P) :
    ∃ tail, (p.add_curves3 curves).commands = p.commands ++ tail := by
  cases curves with
  | nil => exact ⟨[], by simp [Path.add_curves3]⟩
  | cons c cs =>
    have e : p.add_curves3 (c :: cs) =
        (if p.endPoint.isclose ((c :: cs).getLast (by simp)).p2
            defaultAbsTol then
          _reverse_bezier_curves Bezier3P.reverse (c :: cs)
         else (c :: cs)).foldl addCurve3Step p := by
      rw [Path.add_curves3, List.getLast?_eq_getLast _ (by simp)]
    exact ⟨_, by rw [e, foldl_addCurve3Step]⟩

theorem bulge_to_start (curvesOf : Vec3 → Vec3 → ℚ → List Bezier4P)
    (path : Path) (p1 p2 : Vec3) (bulge : ℚ) :
    (bulge_to curvesOf path p1 p2 bulge).start = path.start := by
  rw [bulge_to]
  split
  · rfl
  · exact Path.add_curves4_start _ _

theorem bulge_to_commands (curvesOf : Vec3 → Vec3 → ℚ → List Bezier4P)
    (path : Path) (p1 p2 : Vec3) (bulge : ℚ) :
    ∃ tail, (bulge_to curvesOf path p1 p2 bulge).commands =
      path.commands ++ tail := by
  rw [bulge_to]
  split
  · exact ⟨[], by simp⟩
  · exact Path.add_curves4_commands _ _

theorem add2dPolylineLoop_start (curvesOf : Vec3 → Vec3 → ℚ → List Bezier4P) :
    ∀ (rest : List (ℚ × ℚ × ℚ)) (pp : Vec3) (bulge : ℚ) (path : Path),
      (add2dPolylineLoop curvesOf rest (some pp) bulge path).1.start =
        path.start := by
  intro rest
  induction rest with
  | nil => intro pp bulge path; rfl
  | cons t rest ih =>
    intro pp bulge path
    obtain ⟨x, y, b⟩ := t
    rw [add2dPolylineLoop, ih]
    split
    · exact bulge_to_start _ _ _ _ _
    · rfl

theorem add2dPolylineClose_start (curvesOf : Vec3 → Vec3 → ℚ → List Bezier4P)
    (close : Bool) (res : Path × Option Vec3 × ℚ) :
    (add2dPolylineClose curvesOf close res).start = res.1.start := by
  rw [add2dPolylineClose]
  split
  · split
    · exact bulge_to_start _ _ _ _ _
    · rfl
  · rfl

theorem add2dPolylineWcs_start (ocs : OCS) (elevation : ℚ) (path : Path) :
    (add2dPolylineWcs ocs elevation path).start =
      if ocs.transform ∨ elevation ≠ 0 then
        ocs.to_wcs (path.start.replaceZ elevation)
      else path.start := by
  by_cases h : ocs.transform ∨ elevation ≠ 0 <;>
    simp [add2dPolylineWcs, h, Path._to_wcs]

/-- C9: for any path — also one that already holds commands — and any
non-empty triple sequence, `add_2d_polyline` unconditionally overwrites
the start point with the first triple's (x, y) point, mapped to the world
frame when the frame is nontrivial or the elevation nonzero; no
invalid-state error is possible, the start setter's guard being
bypassed by the direct field write. -/
theorem add_2d_polyline_start_spec (p : Path)
    (curvesOf : Vec3 → Vec3 → ℚ → List Bezier4P) (x y b : ℚ)
    (rest : List (ℚ × ℚ × ℚ)) (close : Bool) (ocs : OCS) (elevation : ℚ) :
    (p.add_2d_polyline curvesOf ((x, y, b) :: rest) close ocs
        elevation).start =
      if ocs.transform ∨ elevation ≠ 0 then
        ocs.to_wcs (Vec3.replaceZ ⟨x, y, 0⟩ elevation)
      else ⟨x, y, 0⟩ := by
  have hloop :
      (add2dPolylineLoop curvesOf ((x, y, b) :: rest) none 0 p).1.start =
        ⟨x, y, 0⟩ := by
    rw [add2dPolylineLoop, add2dPolylineLoop_start curvesOf rest]
  rw [Path.add_2d_polyline, add2dPolylineWcs_start, add2dPolylineClose_start,
    hloop]

/-- C10: each mutation operation appends — the commands present before
the call stay unchanged, in place, as a prefix of the new command list —
and `line_to`, `curve3_to`, `curve4_to`, `close`, `add_curves3` and
`add_curves4` never change the start point, while `add_ellipse` and
`add_spline` keep it whenever the path already held a command. -/
theorem mutation_prefix_spec :
    (∀ (p : Path) (v : Vec3),
      (p.line_to v).commands = p.commands ++ [.lineTo v] ∧
      (p.line_to v).start = p.start) ∧
    (∀ (p : Path) (e ctrl : Vec3),
      (p.curve3_to e ctrl).commands = p.commands ++ [.curve3To e ctrl] ∧
      (p.curve3_to e ctrl).start = p.start) ∧
    (∀ (p : Path) (e ctrl1 ctrl2 : Vec3),
      (p.curve4_to e ctrl1 ctrl2).commands =
        p.commands ++ [.curve4To e ctrl1 ctrl2] ∧
      (p.curve4_to e ctrl1 ctrl2).start = p.start) ∧
    (∀ p : Path, (∃ tail, p.close.commands = p.commands ++ tail) ∧
      p.close.start = p.start) ∧
    (∀ (p : Path) (curves : List Bezier3P),
      (∃ tail, (p.add_curves3 curves).commands = p.commands ++ tail) ∧
      (p.add_curves3 curves).start = p.start) ∧
    (∀ (p : Path) (curves : List Bezier4P),
      (∃ tail, (p.add_curves4 curves).commands = p.commands ++ tail) ∧
      (p.add_curves4 curves).start = p.start) ∧
    (∀ (p : Path) (bezFrom : ConstructionEllipse → Nat → List Bezier4P)
       (ellipse : ConstructionEllipse) (segments : Nat) (reset : Bool),
      (∃ tail, (p.add_ellipse bezFrom ellipse segments reset).commands =
        p.commands ++ tail) ∧
      (p.commands ≠ [] →
        (p.add_ellipse bezFrom ellipse segments reset).start = p.start)) ∧
    (∀ (p : Path) (spline : BSpline) (level : Nat) (reset : Bool),
      (∃ tail, (p.add_spline spline level reset).commands =
        p.commands ++ tail) ∧
      (p.commands ≠ [] → (p.add_spline spline level reset).start =
        p.start)) := by
  refine ⟨?_, ?_, ?_, ?_, ?_, ?_, ?_, ?_⟩
  · intro p v
    exact ⟨rfl, rfl⟩
  · intro p e ctrl
    exact ⟨rfl, rfl⟩
  · intro p e ctrl1 ctrl2
    exact ⟨rfl, rfl⟩
  · intro p
    constructor
    · by_cases h : p.is_closed
      · exact ⟨[], by simp [Path.close, h]⟩
      · exact ⟨[.lineTo p.start], by simp [Path.close, h, Path.line_to]⟩
    · exact p.close_start
  · intro p curves
    exact ⟨p.add_curves3_commands curves, p.add_curves3_start curves⟩
  · intro p curves
    exact ⟨p.add_curves4_commands curves, p.add_curves4_start curves⟩
  · intro p bezFrom ellipse segments reset
    rw [Path.add_ellipse]
    split
    · exact ⟨⟨[], by simp⟩, fun _ => rfl⟩
    · constructor
      · obtain ⟨tail, htail⟩ := Path.add_curves4_commands
          (if p.commands.length = 0 ∧ reset then
            { p with start := ellipse.start_point } else p)
          (bezFrom ellipse segments)
        refine ⟨tail, ?_⟩
        rw [htail]
        split <;> rfl
      · intro h
        rw [Path.add_curves4_start]
        rw [if_neg (by simp [h])]
  · intro p spline level reset
    rw [Path.add_spline]
    constructor
    · obtain ⟨tail, htail⟩ := Path.add_curves4_commands
        (if p.commands.length = 0 ∧ reset then
          { p with start := spline.point0 } else p)
        (if spline.degree = 3 ∧ ¬spline.is_rational ∧ spline.is_clamped then
          spline.bezier_decomposition
         else spline.cubic_bezier_approximation level)
      refine ⟨tail, ?_⟩
      rw [htail]
      split <;> rfl
    · intro h
      rw [Path.add_curves4_start]
      rw [if_neg (by simp [h])]

theorem mutation_prefix_spec_witness :
    (Path.add_ellipse ⟨NULLVEC, [.lineTo ⟨1, 0, 0⟩]⟩
        (fun _ _ => [⟨⟨2, 0, 0⟩, ⟨3, 0, 0⟩, ⟨4, 0, 0⟩, ⟨5, 0, 0⟩⟩])
        ⟨1, ⟨9, 9, 9⟩⟩ 1 true).start =
      (⟨NULLVEC, [.lineTo ⟨1, 0, 0⟩]⟩ : Path).start :=
  (mutation_prefix_spec.2.2.2.2.2.2.1 ⟨NULLVEC, [.lineTo ⟨1, 0, 0⟩]⟩
    (fun _ _ => [⟨⟨2, 0, 0⟩, ⟨3, 0, 0⟩, ⟨4, 0, 0⟩, ⟨5, 0, 0⟩⟩])
    ⟨1, ⟨9, 9, 9⟩⟩ 1 true).2 (by decide)

end Ezdxf
